import Mathlib

/-!
Verification of emoji-win (src/converter/emoji_win) against its
natural-language specification.

The Python modules `bitmap_processor.py` and `font_converter.py` are
shallowly embedded below: each Python function becomes a Lean function on
an explicit state, Python `int` becomes `Nat`/`Int`, Python `float`
arithmetic (which in this code only ever computes the exact ratio 1.0 or
an exact product by 1.0) is modelled over `ℚ` with `int()` as truncation
toward zero, fallible code returns `Except`/`Option`, and PIL images are
modelled by the attributes the code inspects (mode, size, the
`transparency` info key).
-/

namespace EmojiWin

/-! ## bitmap_processor.py -/

/-- DirectWrite preferred sizes (bitmap_processor.py line 38). -/
def directwrite_sizes : List Nat := [16, 20, 24, 32, 40, 48, 64, 96, 128]

/-- Python `min(l, key=k)` after the first element: scan `l` keeping the
current best, replacing it only on a strictly smaller key.  This is the
semantics of CPython `min`, which returns the first minimal element. -/
def pyMin1 (key : Nat → Nat) : Nat → List Nat → Nat
  | b, [] => b
  | b, x :: xs => if key x < key b then pyMin1 key x xs else pyMin1 key b xs

/-- `min(directwrite_sizes, key=lambda x: abs(x - current_max))`
(bitmap_processor.py line 65).  `directwrite_sizes` is a nonempty literal,
so the empty case is unreachable. -/
def closestDW (m : Nat) : Nat :=
  match directwrite_sizes with
  | [] => m
  | x :: xs => pyMin1 (fun c => Nat.dist c m) x xs

/-! ### PIL images and bitmap payloads

`resize_bitmap_data` (bitmap_processor.py lines 244-283) inspects an
image's mode, size and `transparency` info key; those are the attributes
modelled.  `L` stands for any mode other than the ones the code
distinguishes.  A byte payload is modelled by its length together with
what `Image.open` yields on it (`none` = `Image.open` raises). -/

inductive PILMode
  | RGB | RGBA | LA | P | L
deriving DecidableEq, Repr

structure PILImage where
  mode : PILMode
  width : Nat
  height : Nat
  hasTransparencyInfo : Bool
deriving DecidableEq, Repr

structure ByteData where
  length : Nat
  parsesTo : Option PILImage
deriving DecidableEq, Repr

/-- `image.resize((new_size, new_size), ...)`: the mode and the info dict
are preserved, the dimensions change. -/
def pilResize (image : PILImage) (new_size : Nat) : PILImage :=
  { image with width := new_size, height := new_size }

/-- `image.convert('RGBA')`. -/
def pilConvertRGBA (image : PILImage) : PILImage :=
  { image with mode := PILMode.RGBA }

/-- Length of the PNG encoding of an image.  Abstract stand-in: no claim
inspects the encoded length, only that the bytes decode back to the saved
image. -/
def pngEncodedLength (_ : PILImage) : Nat := 100

/-- `image.save(stream, format='PNG')` followed by re-opening the bytes:
PNG round-trips the mode, the dimensions, and (for mode `P`) the
`transparency` info key via a tRNS chunk. -/
def pngSave (image : PILImage) : ByteData :=
  { length := pngEncodedLength image, parsesTo := some image }

/-- bitmap_processor.py lines 244-283 (`resize_bitmap_data`).  `none`
models the `return None` paths, including the except-clause at line 281
that swallows `Image.open` failures. -/
def resize_bitmap_data (bitmap_data : ByteData) (new_size : Nat) :
    Option ByteData :=
  if bitmap_data.length < 10 then none
  else
    match bitmap_data.parsesTo with
    | none => none
    | some image =>
      if image.width = new_size ∧ image.height = new_size then
        some bitmap_data
      else
        let resized := pilResize image new_size
        if image.mode = PILMode.RGBA ∨ image.mode = PILMode.LA ∨
            (image.mode = PILMode.P ∧ image.hasTransparencyInfo) then
          some (pngSave resized)
        else
          some (pngSave (pilConvertRGBA resized))

/-- An image decoded from written-back bytes offers an alpha
(transparency) channel when its mode carries alpha, or when it is a
palette image with a transparency entry. -/
def hasAlphaChannel (image : PILImage) : Bool :=
  image.mode = PILMode.RGBA ∨ image.mode = PILMode.LA ∨
    (image.mode = PILMode.P ∧ image.hasTransparencyInfo)

/-! ### Glyphs and strikes -/

/-- Raw CBDT glyph data (`bitmap_glyph.data`): its byte length and, when
`raw_data.find(b'\x89PNG')` succeeds, the suffix `raw_data[png_start:]`
starting at the signature. -/
structure RawGlyphData where
  length : Nat
  pngFrom : Option ByteData
deriving DecidableEq, Repr

structure BitmapGlyph where
  data : Option RawGlyphData
  imageData : Option ByteData
deriving DecidableEq, Repr

/-- Python truthiness of an optional bytes value: present and nonempty. -/
def truthy : Option ByteData → Bool
  | none => false
  | some bd => bd.length ≠ 0

/-- bitmap_processor.py lines 166-180: locate the glyph's bitmap payload,
first from the raw pre-decompilation data (PNG signature scan), then from
`imageData`.  When both sources are falsy the located value is falsy;
`none` stands for any falsy outcome (the subsequent gate at line 182
treats `None` and empty bytes identically). -/
def locatedBitmapData (g : BitmapGlyph) : Option ByteData :=
  let fromRaw : Option ByteData :=
    match g.data with
    | some rd => if rd.length ≠ 0 then rd.pngFrom else none
    | none => none
  if truthy fromRaw then fromRaw
  else
    match g.imageData with
    | some bd => if bd.length ≠ 0 then some bd else none
    | none => none

/-- The gate at bitmap_processor.py line 182:
`if bitmap_data and len(bitmap_data) > 10` — only then is
`resize_bitmap_data` invoked on the payload. -/
def submittedToResampler (g : BitmapGlyph) : Bool :=
  match locatedBitmapData g with
  | some bd => decide (10 < bd.length)
  | none => false

/-- bitmap_processor.py lines 160-194: per-glyph step of the strike loop.
Returns the (possibly updated) glyph and whether it was counted in
`bitmaps_resized`.  The write-back happens only when `resize_bitmap_data`
returns a truthy (nonempty) value (line 185). -/
def processGlyph (new_size : Nat) (g : BitmapGlyph) : BitmapGlyph × Bool :=
  match locatedBitmapData g with
  | some bd =>
    if 10 < bd.length then
      match resize_bitmap_data bd new_size with
      | some rd =>
        if rd.length ≠ 0 then ({ g with imageData := some rd }, true)
        else (g, false)
      | none => (g, false)
    else (g, false)
  | none => (g, false)

structure BitmapMetrics where
  ascender : Int
  descender : Int
deriving DecidableEq, Repr

/-- The fields of a CBLC `bitmapSizeTable` the code touches.  `hori` and
`vert` are `none` when the corresponding sub-record (or its `ascender`
attribute) is absent. -/
structure BitmapSizeTable where
  ppemX : Nat
  ppemY : Nat
  hori : Option BitmapMetrics
  vert : Option BitmapMetrics
deriving DecidableEq, Repr

/-- A CBLC strike.  `bitmapSizeTable = none` models a strike without the
attribute (or without `ppemX`/`ppemY`); `indexSubTables` is the number of
index subtables (0 = attribute missing or empty list, the two cases line
128 does not distinguish). -/
structure Strike where
  bitmapSizeTable : Option BitmapSizeTable
  indexSubTables : Nat
deriving DecidableEq, Repr

structure CBLCTable where
  strikes : List Strike
deriving DecidableEq, Repr

/-- `cbdt.strikeData[i]` is a dict glyph-name → bitmap glyph, modelled as
an association list in iteration order. -/
structure CBDTTable where
  strikeData : List (List (String × BitmapGlyph))
deriving DecidableEq, Repr

/-- The parts of a fontTools `TTFont` that `bitmap_processor.py` touches;
this state exists only when both CBDT and CBLC are present (the guard at
line 30 lives in the caller model).  `glyphOrderOk = false` models
`font.getGlyphOrder()` raising; its value is assigned at line 136 but
never read afterwards, so only success or failure matters. -/
structure BFont where
  cblc : CBLCTable
  cbdt : CBDTTable
  glyphOrderOk : Bool
deriving DecidableEq, Repr

def setStrike (font : BFont) (i : Nat) (s : Strike) : BFont :=
  { font with cblc := { strikes := font.cblc.strikes.set i s } }

def setStrikeData (font : BFont) (i : Nat)
    (sd : List (String × BitmapGlyph)) : BFont :=
  { font with cbdt := { strikeData := font.cbdt.strikeData.set i sd } }

/-- bitmap_processor.py lines 123-124: overwrite `ppemX`/`ppemY`. -/
def setPpem (bst : BitmapSizeTable) (new_size : Nat) : BitmapSizeTable :=
  { bst with ppemX := new_size, ppemY := new_size }

/-- bitmap_processor.py lines 120-125: the unconditional size-table
update performed at the start of `resize_strike_bitmaps`, before any
glyph data is touched. -/
def resizedStrike (strike : Strike) (new_size : Nat) : Strike :=
  match strike.bitmapSizeTable with
  | some bst => { strike with bitmapSizeTable := some (setPpem bst new_size) }
  | none => strike

/-- bitmap_processor.py lines 107-201 (`resize_strike_bitmaps`).  The
result is the font state after all performed mutations together with the
returned Boolean, or `Except.error ()` when an exception escapes the
function (possible at line 136: `font.getGlyphOrder()` sits after the
size-table update of lines 120-125 and before the try/except of line
139). -/
def resize_strike_bitmaps (font : BFont) (strike_index new_size : Nat) :
    BFont × Except Unit Bool :=
  if h : strike_index < font.cblc.strikes.length then
    let strike := font.cblc.strikes.get ⟨strike_index, h⟩
    let strike1 := resizedStrike strike new_size
    let font1 := setStrike font strike_index strike1
    if strike1.indexSubTables = 0 then (font1, Except.ok false)
    else if font.glyphOrderOk then
      if h2 : strike_index < font1.cbdt.strikeData.length then
        let sd := font1.cbdt.strikeData.get ⟨strike_index, h2⟩
        let step := sd.foldl (fun acc p =>
            let r := processGlyph new_size p.2
            (acc.1 ++ [(p.1, r.1)], acc.2 + if r.2 then 1 else 0))
          (([] : List (String × BitmapGlyph)), (0 : Nat))
        (setStrikeData font1 strike_index step.1,
          Except.ok (decide (0 < step.2)))
      else (font1, Except.ok false)
    else (font1, Except.error ())
  else (font, Except.ok false)

/-- Python `int()` on a rational value: truncation toward zero. -/
def intTrunc (q : ℚ) : ℤ := if 0 ≤ q then ⌊q⌋ else -⌊-q⌋

def scaleMetrics (m : BitmapMetrics) (sf : ℚ) : BitmapMetrics :=
  { ascender := intTrunc ((m.ascender : ℚ) * sf),
    descender := intTrunc ((m.descender : ℚ) * sf) }

/-- bitmap_processor.py lines 204-241 (`update_strike_size_metadata`).
Note the source order: `bst.ppemX`/`bst.ppemY` are overwritten with
`new_size` at lines 221-222, and only afterwards (lines 228, 234) is
`scale_factor = new_size / max(bst.ppemX, bst.ppemY)` computed — from
the already-updated fields.  Python float arithmetic is modelled over
`ℚ`; on every reachable input the computed ratio is exactly 1, where
float and rational arithmetic agree. -/
def update_strike_size_metadata (font : BFont) (strike_index new_size : Nat) :
    BFont × Bool :=
  if h : strike_index < font.cblc.strikes.length then
    let strike := font.cblc.strikes.get ⟨strike_index, h⟩
    match strike.bitmapSizeTable with
    | some bst =>
      let bst1 := { bst with ppemX := new_size, ppemY := new_size }
      let bst2 :=
        match bst1.hori with
        | some m =>
          let sf : ℚ :=
            if 0 < max bst1.ppemX bst1.ppemY then
              (new_size : ℚ) / (max bst1.ppemX bst1.ppemY : ℚ)
            else 1
          { bst1 with hori := some (scaleMetrics m sf) }
        | none => bst1
      let bst3 :=
        match bst2.vert with
        | some m =>
          let sf : ℚ :=
            if 0 < max bst2.ppemX bst2.ppemY then
              (new_size : ℚ) / (max bst2.ppemX bst2.ppemY : ℚ)
            else 1
          { bst2 with vert := some (scaleMetrics m sf) }
        | none => bst2
      (setStrike font strike_index
        { strike with bitmapSizeTable := some bst3 }, true)
    | none => (font, false)
  else (font, false)

/-- bitmap_processor.py lines 45-97: the body of the per-strike loop of
`fix_cbdt_cblc_sizes_for_directwrite`.  Returns the new font state and
whether the strike was counted in `strikes_modified`. -/
def processStrikeAt (font : BFont) (i : Nat) : BFont × Bool :=
  match font.cblc.strikes.get? i with
  | none => (font, false)
  | some strike =>
    match strike.bitmapSizeTable with
    | none => (font, false)
    | some bst =>
      let current_max := max bst.ppemX bst.ppemY
      let closest_size := closestDW current_max
      if current_max = closest_size then (font, false)
      else
        match resize_strike_bitmaps font i closest_size with
        | (font1, Except.ok true) => (font1, true)
        | (font1, Except.ok false) =>
          update_strike_size_metadata font1 i closest_size
        | (font1, Except.error _) => (font1, false)

/-- One iteration of the strike loop: thread the font state and the
`strikes_modified` counter. -/
def fixStep (acc : BFont × Nat) (i : Nat) : BFont × Nat :=
  let r := processStrikeAt acc.1 i
  (r.1, acc.2 + if r.2 then 1 else 0)

/-- bitmap_processor.py lines 16-104
(`fix_cbdt_cblc_sizes_for_directwrite`), for a font that has both CBDT
and CBLC: process every strike in order, count the modified ones, and
report whether any strike was modified. -/
def fix_cbdt_cblc_sizes_for_directwrite (font : BFont) : BFont × Bool :=
  let step := (List.range font.cblc.strikes.length).foldl fixStep (font, 0)
  (step.1, decide (0 < step.2))

/-! ## font_converter.py -/

/-- A cmap subtable as the code sees it.  `cmap` is the codepoint →
glyph-name dict in iteration order; fontTools cmap subtables always carry
this attribute once the table is parsed, so the defensive `hasattr`
guards (font_converter.py lines 62, 148) are always true and are
dropped. -/
structure CmapSubtable where
  platformID : Nat
  platEncID : Nat
  format : Nat
  language : Nat
  cmap : List (Nat × String)
deriving DecidableEq, Repr

/-- Python `list.insert(n, a)`: an index beyond the end appends. -/
def pyInsert {α : Type} (n : Nat) (a : α) (l : List α) : List α :=
  if n ≤ l.length then l.insertIdx n a else l ++ [a]

/-- The test `subtable.platformID == 3 and subtable.platEncID == 10`. -/
def is310 (st : CmapSubtable) : Bool :=
  st.platformID == 3 && st.platEncID == 10

/-- font_converter.py lines 127-129: is a (platform 3, encoding 1)
subtable present. -/
def has_windows_unicode_bmp (tables : List CmapSubtable) : Bool :=
  tables.any (fun st => st.platformID == 3 && st.platEncID == 1)

/-- font_converter.py lines 130-131. -/
def has_windows_unicode_full (tables : List CmapSubtable) : Bool :=
  tables.any is310

/-- font_converter.py lines 127-132: the scan overwrites
`unicode_full_subtable` on every (3, 10) hit, so it holds the last
one. -/
def unicode_full_subtable (tables : List CmapSubtable) :
    Option CmapSubtable :=
  tables.foldl (fun acc st => if is310 st then some st else acc) none

/-- font_converter.py lines 192-195: replace the first (3, 10) entry of
the list, in place. -/
def replaceFirst310 (new : CmapSubtable) :
    List CmapSubtable → List CmapSubtable
  | [] => []
  | st :: rest =>
    if is310 st then new :: rest
    else st :: replaceFirst310 new rest

/-- font_converter.py lines 169-196 (`_ensure_format12_cmap`). -/
def ensure_format12_cmap (tables : List CmapSubtable)
    (full : Option CmapSubtable) : List CmapSubtable :=
  let has_format12 := tables.any (fun st => is310 st && st.format == 12)
  if ¬ has_format12 then
    match full with
    | some fs =>
      if fs.format ≠ 12 then
        let format12 : CmapSubtable :=
          { platformID := 3, platEncID := 10, format := 12, language := 0,
            cmap := fs.cmap }
        replaceFirst310 format12 tables
      else tables
    | none => tables
  else tables

/-- font_converter.py lines 146-153: the cmap of the synthesized BMP
subtable — the entries of the full-Unicode subtable whose codepoint lies
in `0x0000 <= codepoint <= 0xFFFF`. -/
def bmp_cmap_of (full : Option CmapSubtable) : List (Nat × String) :=
  match full with
  | some fs => fs.cmap.filter (fun p => decide (0x0000 ≤ p.1 ∧ p.1 ≤ 0xFFFF))
  | none => []

/-- font_converter.py lines 141-154: the synthesized Format-4 (3, 1)
subtable. -/
def bmp_subtable_of (full : Option CmapSubtable) : CmapSubtable :=
  { platformID := 3, platEncID := 1, format := 4, language := 0,
    cmap := bmp_cmap_of full }

/-- font_converter.py lines 119-166 (`_ensure_windows_compatible_cmap`),
acting on the list of cmap subtables. -/
def ensure_windows_compatible_cmap (tables : List CmapSubtable) :
    List CmapSubtable :=
  if ¬ has_windows_unicode_bmp tables &&
      has_windows_unicode_full tables then
    let tables1 :=
      pyInsert 1 (bmp_subtable_of (unicode_full_subtable tables)) tables
    ensure_format12_cmap tables1 (unicode_full_subtable tables)
  else tables

/-! ### Name table -/

structure NameRecord where
  nameID : Nat
  platformID : Nat
  platEncID : Nat
  langID : Nat
  string : String
deriving DecidableEq, Repr

/-- font_converter.py lines 231-242. -/
def windows_names : List (Nat × String) :=
  [(1, "Segoe UI Emoji"),
   (2, "Regular"),
   (3, "Microsoft:Segoe UI Emoji Regular:2023"),
   (4, "Segoe UI Emoji"),
   (5, "Version 1.00"),
   (6, "SegoeUIEmoji"),
   (16, "Segoe UI Emoji"),
   (17, "Regular"),
   (21, "Segoe UI Emoji"),
   (22, "Regular")]

/-- font_converter.py lines 245-249. -/
def name_platforms : List (Nat × Nat × Nat) :=
  [(3, 1, 0x409), (3, 10, 0x409), (1, 0, 0)]

/-- font_converter.py lines 224-261 (`_update_font_names`): the table's
record list is cleared (`name_table.names = []`, line 228) and rebuilt by
the nested loops of lines 251-259.  The argument is the record list held
before the rewrite. -/
def update_font_names (_old : List NameRecord) : List NameRecord :=
  name_platforms.foldl
    (fun acc p =>
      windows_names.foldl
        (fun acc2 n =>
          acc2 ++ [{ nameID := n.1, platformID := p.1, platEncID := p.2.1,
                     langID := p.2.2, string := n.2 }])
        acc)
    ([] : List NameRecord)

/-- The deduplication key of a name record. -/
def nameKey (r : NameRecord) : Nat × Nat × Nat × Nat :=
  (r.nameID, r.platformID, r.platEncID, r.langID)

/-! ### The conversion pipeline -/

/-- The parts of the loaded `TTFont` that
`convert_apple_emoji_to_windows` touches.  `cmap`/`name` are `none` when
the table is absent (their lookups `font["cmap"]`, `font["name"]` are
unguarded and raise `KeyError`); `os2`/`head`/`post` record only
presence, because the code guards each rewrite with an `in font` check
and the claims concern only that handling; `bitmap` is the CBDT/CBLC
pair when both tables are present. -/
structure TFont where
  cmap : Option (List CmapSubtable)
  name : Option (List NameRecord)
  os2 : Bool
  head : Bool
  post : Bool
  bitmap : Option BFont

/-- font_converter.py lines 18-116 (`convert_apple_emoji_to_windows`).
Steps 2, 3 and 8 only log; steps 5-7 rewrite fixed fields of OS/2, head
and post when the table is present (presence flags carried through);
step 10 (`_save_font`) catches its own exceptions, and disk output is
not modelled and taken to succeed.  An `Except.error` is an uncaught
exception escaping the entry point. -/
def convert_apple_emoji_to_windows (font : TFont) :
    Except String (TFont × Bool) :=
  match font.cmap with
  | none => Except.error "KeyError: cmap"
  | some cmapTables =>
    let font1 :=
      { font with cmap := some (ensure_windows_compatible_cmap cmapTables) }
    match font1.name with
    | none => Except.error "KeyError: name"
    | some nameRecs =>
      let font2 := { font1 with name := some (update_font_names nameRecs) }
      let font3 :=
        match font2.bitmap with
        | some b =>
          let b1 := (fix_cbdt_cblc_sizes_for_directwrite b).1
          { font2 with bitmap := some b1 }
        | none => font2
      Except.ok (font3, true)

/-- Invariant used for idempotence: a strike whose declared size record,
when present, already carries a canonical DirectWrite maximum size. -/
def goodStrike (s : Strike) : Prop :=
  ∀ bst, s.bitmapSizeTable = some bst →
    max bst.ppemX bst.ppemY ∈ directwrite_sizes

/-! ## Concrete instances used by the individual claims -/

/-- An Apple 137 ppem strike with metric sub-records. -/
def bstC2 : BitmapSizeTable :=
  { ppemX := 137, ppemY := 137,
    hori := some { ascender := 100, descender := -30 },
    vert := some { ascender := 50, descender := -20 } }

def fontC2 : BFont :=
  { cblc := { strikes := [{ bitmapSizeTable := some bstC2,
                            indexSubTables := 1 }] },
    cbdt := { strikeData := [[]] },
    glyphOrderOk := true }

/-- The strike of `fontC2` as `update_strike_size_metadata` leaves it:
sizes rewritten to 128, metric sub-records untouched. -/
def bstC2out : BitmapSizeTable :=
  { ppemX := 128, ppemY := 128,
    hori := some { ascender := 100, descender := -30 },
    vert := some { ascender := 50, descender := -20 } }

def strikeC2out : Strike :=
  { bitmapSizeTable := some bstC2out, indexSubTables := 1 }

/-- A 137 ppem strike on a font whose glyph-order lookup raises: the
resampling attempt aborts with an exception after the size-table
rewrite. -/
def bstC3 : BitmapSizeTable :=
  { ppemX := 137, ppemY := 137,
    hori := some { ascender := 100, descender := -30 }, vert := none }

def strikeC3 : Strike :=
  { bitmapSizeTable := some bstC3, indexSubTables := 1 }

def fontC3 : BFont :=
  { cblc := { strikes := [strikeC3] },
    cbdt := { strikeData := [[]] },
    glyphOrderOk := false }

/-- The strike of `fontC3` after the failed processing: sizes already
rewritten to 128 although both attempts failed. -/
def bstC3out : BitmapSizeTable :=
  { ppemX := 128, ppemY := 128,
    hori := some { ascender := 100, descender := -30 }, vert := none }

def strikeC3out : Strike :=
  { bitmapSizeTable := some bstC3out, indexSubTables := 1 }

/-- A strike already at a canonical maximum size (128). -/
def bstC6 : BitmapSizeTable :=
  { ppemX := 128, ppemY := 64, hori := none, vert := none }

def strikeC6 : Strike :=
  { bitmapSizeTable := some bstC6, indexSubTables := 1 }

def fontC6 : BFont :=
  { cblc := { strikes := [strikeC6] },
    cbdt := { strikeData := [[]] },
    glyphOrderOk := true }

/-- A located payload of exactly 10 bytes. -/
def bdC7 : ByteData :=
  { length := 10,
    parsesTo := some { mode := PILMode.RGBA, width := 137, height := 137,
                       hasTransparencyInfo := false } }

def glyphC7 : BitmapGlyph := { data := none, imageData := some bdC7 }

/-- An RGB image (no alpha) already at the 128x128 target size. -/
def imgC8 : PILImage :=
  { mode := PILMode.RGB, width := 128, height := 128,
    hasTransparencyInfo := false }

def bdC8 : ByteData := { length := 20, parsesTo := some imgC8 }

def glyphC8 : BitmapGlyph := { data := none, imageData := some bdC8 }

/-- An RGB image at 137x137, which the resampler re-encodes. -/
def imgC8w : PILImage :=
  { mode := PILMode.RGB, width := 137, height := 137,
    hasTransparencyInfo := false }

def bdC8w : ByteData := { length := 20, parsesTo := some imgC8w }

def rdC8w : ByteData := pngSave (pilConvertRGBA (pilResize imgC8w 128))

/-- A cmap with only a (3, 10) full-Unicode subtable holding one BMP and
one supplementary-plane codepoint. -/
def fsC4 : CmapSubtable :=
  { platformID := 3, platEncID := 10, format := 4, language := 0,
    cmap := [(0x41, "A"), (0x1F600, "grinningface")] }

def tablesC4 : List CmapSubtable := [fsC4]

/-- A cmap that already has a (3, 1) BMP subtable next to a Format-4
(3, 10) subtable. -/
def tablesC5 : List CmapSubtable :=
  [{ platformID := 3, platEncID := 1, format := 4, language := 0,
     cmap := [(0x41, "A")] },
   { platformID := 3, platEncID := 10, format := 4, language := 0,
     cmap := [(0x41, "A"), (0x1F600, "grinningface")] }]

def tablesC10 : List CmapSubtable :=
  [{ platformID := 3, platEncID := 10, format := 12, language := 0,
     cmap := [(0x41, "A")] }]

/-- A font with no cmap table. -/
def fontC10a : TFont :=
  { cmap := none, name := some [], os2 := false, head := false,
    post := false, bitmap := none }

/-- A font with cmap and name but neither OS/2, head, post nor
CBDT/CBLC. -/
def fontC10b : TFont :=
  { cmap := some tablesC10, name := some [], os2 := false, head := false,
    post := false, bitmap := none }

/-! ## Lemmas -/

lemma pyMin1_mem (key : Nat → Nat) (b : Nat) (l : List Nat) :
    pyMin1 key b l ∈ b :: l := by
  induction l generalizing b with
  | nil => simp [pyMin1]
  | cons x xs ih =>
    by_cases hlt : key x < key b
    · rw [pyMin1, if_pos hlt]
      have h := ih x
      simp only [List.mem_cons] at h ⊢
      tauto
    · rw [pyMin1, if_neg hlt]
      have h := ih b
      simp only [List.mem_cons] at h ⊢
      tauto

lemma pyMin1_key_le (key : Nat → Nat) (b : Nat) (l : List Nat) :
    ∀ c ∈ b :: l, key (pyMin1 key b l) ≤ key c := by
  induction l generalizing b with
  | nil => simp [pyMin1]
  | cons x xs ih =>
    intro c hc
    by_cases hlt : key x < key b
    · rw [pyMin1, if_pos hlt]
      rcases List.mem_cons.mp hc with h | h
      · subst h
        exact le_of_lt (lt_of_le_of_lt (ih x x (List.mem_cons_self x xs)) hlt)
      · exact ih x c h
    · rw [pyMin1, if_neg hlt]
      rcases List.mem_cons.mp hc with h | h
      · rw [h]
        exact ih b b (List.mem_cons_self b xs)
      · rcases List.mem_cons.mp h with h2 | h2
        · subst h2
          exact le_trans (ih b b (List.mem_cons_self b xs)) (Nat.le_of_not_lt hlt)
        · exact ih b c (List.mem_cons.mpr (Or.inr h2))

lemma pyMin1_eq_of_key_eq (key : Nat → Nat) (b : Nat) (l : List Nat) :
    key (pyMin1 key b l) = key b → pyMin1 key b l = b := by
  induction l generalizing b with
  | nil => intro _; rfl
  | cons x xs ih =>
    intro heq
    by_cases hlt : key x < key b
    · rw [pyMin1, if_pos hlt] at heq
      exfalso
      have hx := pyMin1_key_le key x xs x (List.mem_cons_self x xs)
      omega
    · rw [pyMin1, if_neg hlt] at heq ⊢
      exact ih b heq

lemma pyMin1_tie_le (key : Nat → Nat) (b : Nat) (l : List Nat)
    (hs : List.Pairwise (· ≤ ·) (b :: l)) :
    ∀ c ∈ b :: l, key c = key (pyMin1 key b l) → pyMin1 key b l ≤ c := by
  induction l generalizing b with
  | nil =>
    intro c hc _
    simp only [List.mem_cons, List.not_mem_nil, or_false] at hc
    simp [pyMin1, hc]
  | cons x xs ih =>
    intro c hc hkey
    have hbx : b ≤ x := (List.pairwise_cons.mp hs).1 x (List.mem_cons_self x xs)
    have hs1 : List.Pairwise (· ≤ ·) (x :: xs) := (List.pairwise_cons.mp hs).2
    have hs2 : List.Pairwise (· ≤ ·) (b :: xs) := by
      refine List.Pairwise.sublist ?_ hs
      exact List.Sublist.cons₂ b (List.sublist_cons_self x xs)
    by_cases hlt : key x < key b
    · rw [pyMin1, if_pos hlt] at hkey ⊢
      rcases List.mem_cons.mp hc with h | h
      · subst h
        exfalso
        have hx := pyMin1_key_le key x xs x (List.mem_cons_self x xs)
        omega
      · exact ih x hs1 c h hkey
    · rw [pyMin1, if_neg hlt] at hkey ⊢
      rcases List.mem_cons.mp hc with h | h
      · rw [h] at hkey ⊢
        have hres : pyMin1 key b xs = b := by
          apply pyMin1_eq_of_key_eq
          have h1 := pyMin1_key_le key b xs b (List.mem_cons_self b xs)
          omega
        rw [hres]
      · rcases List.mem_cons.mp h with h2 | h2
        · -- c = x : the result cannot be a strictly later element with the
          -- same key, so it is b, and b ≤ x by sortedness.
          rw [h2] at hkey ⊢
          have hres : pyMin1 key b xs = b := by
            apply pyMin1_eq_of_key_eq
            have h1 := pyMin1_key_le key b xs b (List.mem_cons_self b xs)
            have hge := Nat.le_of_not_lt hlt
            omega
          rw [hres]
          exact hbx
        · exact ih b hs2 c (List.mem_cons.mpr (Or.inr h2)) hkey

lemma dw_sorted : List.Pairwise (· ≤ ·) directwrite_sizes := by
  decide

lemma closestDW_mem (m : Nat) : closestDW m ∈ directwrite_sizes := by
  simp only [closestDW, directwrite_sizes]
  exact pyMin1_mem (fun c => Nat.dist c m) 16 [20, 24, 32, 40, 48, 64, 96, 128]

lemma closestDW_min (m : Nat) :
    ∀ c ∈ directwrite_sizes, Nat.dist (closestDW m) m ≤ Nat.dist c m := by
  simp only [closestDW, directwrite_sizes]
  exact pyMin1_key_le (fun c => Nat.dist c m) 16 [20, 24, 32, 40, 48, 64, 96, 128]

lemma closestDW_tie (m : Nat) :
    ∀ c ∈ directwrite_sizes, Nat.dist c m = Nat.dist (closestDW m) m →
      closestDW m ≤ c := by
  simp only [closestDW, directwrite_sizes]
  exact pyMin1_tie_le (fun c => Nat.dist c m) 16 [20, 24, 32, 40, 48, 64, 96, 128]
    dw_sorted

lemma closestDW_self (m : Nat) (hm : m ∈ directwrite_sizes) :
    closestDW m = m := by
  have h0 := closestDW_min m m hm
  simp only [Nat.dist_self, Nat.le_zero] at h0
  exact Nat.eq_of_dist_eq_zero h0

lemma resizedStrike_indexSubTables (s : Strike) (n : Nat) :
    (resizedStrike s n).indexSubTables = s.indexSubTables := by
  unfold resizedStrike
  split <;> rfl

lemma resizedStrike_bst (s : Strike) (n : Nat) (bst : BitmapSizeTable)
    (hb : s.bitmapSizeTable = some bst) :
    (resizedStrike s n).bitmapSizeTable = some (setPpem bst n) := by
  unfold resizedStrike
  rw [hb]

lemma setStrike_cblc (font : BFont) (i : Nat) (s : Strike) :
    (setStrike font i s).cblc.strikes = font.cblc.strikes.set i s := rfl

lemma setStrikeData_cblc (font : BFont) (i : Nat)
    (sd : List (String × BitmapGlyph)) :
    (setStrikeData font i sd).cblc = font.cblc := rfl

lemma resize_strike_bitmaps_cblc (font : BFont) (i n : Nat)
    (h : i < font.cblc.strikes.length) :
    (resize_strike_bitmaps font i n).1.cblc.strikes =
      font.cblc.strikes.set i
        (resizedStrike (font.cblc.strikes.get ⟨i, h⟩) n) := by
  unfold resize_strike_bitmaps
  rw [dif_pos h]
  dsimp only
  split
  · rfl
  · split
    · split
      · rfl
      · rfl
    · rfl

lemma resize_strike_bitmaps_error (font : BFont) (i n : Nat)
    (h : i < font.cblc.strikes.length)
    (hidx : (font.cblc.strikes.get ⟨i, h⟩).indexSubTables ≠ 0)
    (hgo : font.glyphOrderOk = false) :
    resize_strike_bitmaps font i n =
      (setStrike font i (resizedStrike (font.cblc.strikes.get ⟨i, h⟩) n),
        Except.error ()) := by
  unfold resize_strike_bitmaps
  rw [dif_pos h]
  dsimp only
  rw [if_neg (by rw [resizedStrike_indexSubTables]; exact hidx),
    if_neg (by simp [hgo])]

lemma update_strike_size_metadata_some (font : BFont) (i n : Nat)
    (h : i < font.cblc.strikes.length) (bst : BitmapSizeTable)
    (hb : (font.cblc.strikes.get ⟨i, h⟩).bitmapSizeTable = some bst) :
    ∃ bst3 : BitmapSizeTable,
      (update_strike_size_metadata font i n).1.cblc.strikes =
        font.cblc.strikes.set i
          { font.cblc.strikes.get ⟨i, h⟩ with bitmapSizeTable := some bst3 } ∧
      bst3.ppemX = n ∧ bst3.ppemY = n ∧
      (update_strike_size_metadata font i n).2 = true := by
  unfold update_strike_size_metadata
  rw [dif_pos h]
  dsimp only
  rw [hb]
  dsimp only
  rcases hh : bst.hori with _ | m <;> rcases hv : bst.vert with _ | mv <;>
    simp only [hh, hv] <;> exact ⟨_, rfl, rfl, rfl, trivial⟩

lemma intTrunc_intCast (a : ℤ) : intTrunc (a : ℚ) = a := by
  unfold intTrunc
  split
  · exact Int.floor_intCast a
  · rw [← Int.cast_neg, Int.floor_intCast]
    omega

lemma scaleMetrics_one (m : BitmapMetrics) : scaleMetrics m 1 = m := by
  simp [scaleMetrics, intTrunc_intCast]

/-- The dead scale factor of `update_strike_size_metadata`: because
ppemX/ppemY are overwritten before it is computed, it is
`new_size / max(new_size, new_size) = 1` whenever the target is
positive, so the ascender/descender fields are in fact never changed. -/
lemma update_strike_size_metadata_no_scale (font : BFont) (i n : Nat)
    (h : i < font.cblc.strikes.length) (bst : BitmapSizeTable)
    (hb : (font.cblc.strikes.get ⟨i, h⟩).bitmapSizeTable = some bst)
    (hn : 0 < n) :
    update_strike_size_metadata font i n =
      (setStrike font i
        { font.cblc.strikes.get ⟨i, h⟩ with
          bitmapSizeTable := some
            { ppemX := n, ppemY := n, hori := bst.hori,
              vert := bst.vert } },
        true) := by
  unfold update_strike_size_metadata
  rw [dif_pos h]
  dsimp only
  rw [hb]
  dsimp only
  have hdiv : ((n : ℚ) / ((n : Nat) : ℚ)) = 1 :=
    div_self (Nat.cast_ne_zero.mpr (by omega))
  rcases hh : bst.hori with _ | m <;> rcases hv : bst.vert with _ | mv <;>
    simp only [hh, hv, Nat.max_self, max_self, if_pos hn, hdiv,
      scaleMetrics_one]

lemma list_get?_set_self {α : Type} (l : List α) (i : Nat) (a : α)
    (h : i < l.length) : (l.set i a).get? i = some a := by
  simp [List.get?_eq_getElem?, h]

lemma list_get?_set_ne {α : Type} (l : List α) (i j : Nat) (a : α)
    (h : j ≠ i) : (l.set i a).get? j = l.get? j := by
  simp [List.get?_eq_getElem?, List.getElem?_set_ne (Ne.symm h)]

lemma processStrikeAt_skip_none (font : BFont) (i : Nat)
    (hq : font.cblc.strikes.get? i = none) :
    processStrikeAt font i = (font, false) := by
  unfold processStrikeAt
  rw [hq]

lemma processStrikeAt_skip_nobst (font : BFont) (i : Nat) (strike : Strike)
    (hq : font.cblc.strikes.get? i = some strike)
    (hb : strike.bitmapSizeTable = none) :
    processStrikeAt font i = (font, false) := by
  unfold processStrikeAt
  rw [hq]
  dsimp only
  rw [hb]

lemma processStrikeAt_skip_eq (font : BFont) (i : Nat) (strike : Strike)
    (bst : BitmapSizeTable)
    (hq : font.cblc.strikes.get? i = some strike)
    (hb : strike.bitmapSizeTable = some bst)
    (heq : max bst.ppemX bst.ppemY = closestDW (max bst.ppemX bst.ppemY)) :
    processStrikeAt font i = (font, false) := by
  unfold processStrikeAt
  rw [hq]
  dsimp only
  rw [hb]
  dsimp only
  rw [if_pos heq]

lemma processStrikeAt_skip_canonical (font : BFont) (i : Nat)
    (strike : Strike) (bst : BitmapSizeTable)
    (hq : font.cblc.strikes.get? i = some strike)
    (hb : strike.bitmapSizeTable = some bst)
    (hm : max bst.ppemX bst.ppemY ∈ directwrite_sizes) :
    processStrikeAt font i = (font, false) :=
  processStrikeAt_skip_eq font i strike bst hq hb
    (closestDW_self _ hm).symm

lemma processStrikeAt_active (font : BFont) (i : Nat) (strike : Strike)
    (bst : BitmapSizeTable)
    (hq : font.cblc.strikes.get? i = some strike)
    (hb : strike.bitmapSizeTable = some bst)
    (hne : max bst.ppemX bst.ppemY ≠ closestDW (max bst.ppemX bst.ppemY)) :
    ∃ strike' : Strike,
      (processStrikeAt font i).1.cblc.strikes =
        font.cblc.strikes.set i strike' ∧
      ∃ bst', strike'.bitmapSizeTable = some bst' ∧
        bst'.ppemX = closestDW (max bst.ppemX bst.ppemY) ∧
        bst'.ppemY = closestDW (max bst.ppemX bst.ppemY) := by
  obtain ⟨hlt, hget⟩ := List.get?_eq_some.mp hq
  unfold processStrikeAt
  rw [hq]
  dsimp only
  rw [hb]
  dsimp only
  rw [if_neg hne]
  rcases hr : resize_strike_bitmaps font i
      (closestDW (max bst.ppemX bst.ppemY)) with ⟨f1, r⟩
  have hf1 : f1.cblc.strikes =
      font.cblc.strikes.set i
        (resizedStrike strike (closestDW (max bst.ppemX bst.ppemY))) := by
    have hc := resize_strike_bitmaps_cblc font i
      (closestDW (max bst.ppemX bst.ppemY)) hlt
    rw [hr, hget] at hc
    exact hc
  rcases r with e | b
  · exact ⟨_, hf1,
      setPpem bst (closestDW (max bst.ppemX bst.ppemY)),
      resizedStrike_bst strike _ bst hb, rfl, rfl⟩
  · rcases b with _ | _
    · dsimp only
      have hlen1 : i < f1.cblc.strikes.length := by
        rw [hf1]
        simpa using hlt
      have hget1 : f1.cblc.strikes.get ⟨i, hlen1⟩ =
          resizedStrike strike (closestDW (max bst.ppemX bst.ppemY)) := by
        have := list_get?_set_self font.cblc.strikes i
          (resizedStrike strike (closestDW (max bst.ppemX bst.ppemY))) hlt
        rw [← hf1] at this
        have h2 := List.get?_eq_get hlen1
        rw [this] at h2
        exact Option.some.inj h2.symm
      obtain ⟨bst3, hstrikes, hX, hY, _⟩ :=
        update_strike_size_metadata_some f1 i
          (closestDW (max bst.ppemX bst.ppemY)) hlen1
          (setPpem bst (closestDW (max bst.ppemX bst.ppemY)))
          (by rw [hget1]; exact resizedStrike_bst strike _ bst hb)
      refine ⟨{ resizedStrike strike (closestDW (max bst.ppemX bst.ppemY))
          with bitmapSizeTable := some bst3 }, ?_, bst3, rfl, hX, hY⟩
      rw [hstrikes, hget1, hf1, List.set_set]
    · exact ⟨_, hf1,
        setPpem bst (closestDW (max bst.ppemX bst.ppemY)),
        resizedStrike_bst strike _ bst hb, rfl, rfl⟩

lemma processStrikeAt_get?_ne (font : BFont) (i j : Nat) (hne : j ≠ i) :
    (processStrikeAt font i).1.cblc.strikes.get? j =
      font.cblc.strikes.get? j := by
  cases hq : font.cblc.strikes.get? i with
  | none => rw [processStrikeAt_skip_none font i hq]
  | some strike =>
    cases hb : strike.bitmapSizeTable with
    | none => rw [processStrikeAt_skip_nobst font i strike hq hb]
    | some bst =>
      by_cases heq :
          max bst.ppemX bst.ppemY = closestDW (max bst.ppemX bst.ppemY)
      · rw [processStrikeAt_skip_eq font i strike bst hq hb heq]
      · obtain ⟨strike', hset, _⟩ :=
          processStrikeAt_active font i strike bst hq hb heq
        rw [hset]
        exact list_get?_set_ne font.cblc.strikes i j strike' hne

lemma processStrikeAt_good_self (font : BFont) (i : Nat) :
    ∀ strike', (processStrikeAt font i).1.cblc.strikes.get? i =
      some strike' → goodStrike strike' := by
  intro strike' h'
  cases hq : font.cblc.strikes.get? i with
  | none =>
    rw [processStrikeAt_skip_none font i hq] at h'
    rw [hq] at h'
    cases h'
  | some strike =>
    cases hb : strike.bitmapSizeTable with
    | none =>
      rw [processStrikeAt_skip_nobst font i strike hq hb, hq] at h'
      injection h' with h''
      subst h''
      intro bst0 hb0
      rw [hb] at hb0
      cases hb0
    | some bst =>
      by_cases heq :
          max bst.ppemX bst.ppemY = closestDW (max bst.ppemX bst.ppemY)
      · rw [processStrikeAt_skip_eq font i strike bst hq hb heq, hq] at h'
        injection h' with h''
        subst h''
        intro bst0 hb0
        rw [hb] at hb0
        injection hb0 with hbb
        subst hbb
        rw [heq]
        exact closestDW_mem _
      · obtain ⟨strike'', hset, bst', hbst', hX, hY⟩ :=
          processStrikeAt_active font i strike bst hq hb heq
        have hlt : i < font.cblc.strikes.length :=
          (List.get?_eq_some.mp hq).1
        rw [hset, list_get?_set_self font.cblc.strikes i strike'' hlt] at h'
        injection h' with h''
        subst h''
        intro bst0 hb0
        rw [hbst'] at hb0
        injection hb0 with hbb
        subst hbb
        rw [hX, hY, Nat.max_self]
        exact closestDW_mem _

lemma processStrikeAt_of_good (font : BFont) (i : Nat)
    (hg : ∀ s, font.cblc.strikes.get? i = some s → goodStrike s) :
    processStrikeAt font i = (font, false) := by
  cases hq : font.cblc.strikes.get? i with
  | none => exact processStrikeAt_skip_none font i hq
  | some strike =>
    cases hb : strike.bitmapSizeTable with
    | none => exact processStrikeAt_skip_nobst font i strike hq hb
    | some bst =>
      exact processStrikeAt_skip_canonical font i strike bst hq hb
        (hg strike hq bst hb)

lemma foldl_fixStep_good :
    ∀ (is : List Nat) (font : BFont) (c : Nat) (j : Nat) (s : Strike),
      (j ∈ is ∨ ∀ s0, font.cblc.strikes.get? j = some s0 → goodStrike s0) →
      (is.foldl fixStep (font, c)).1.cblc.strikes.get? j = some s →
      goodStrike s := by
  intro is
  induction is with
  | nil =>
    intro font c j s hj hs
    rcases hj with hj | hj
    · cases hj
    · exact hj s hs
  | cons i is' ih =>
    intro font c j s hj hs
    rw [List.foldl_cons] at hs
    have hstep : fixStep (font, c) i =
        ((processStrikeAt font i).1,
          c + if (processStrikeAt font i).2 then 1 else 0) := rfl
    rw [hstep] at hs
    refine ih (processStrikeAt font i).1 _ j s ?_ hs
    rcases hj with hj | hj
    · rcases List.mem_cons.mp hj with hji | hjm
      · right
        intro s0 hs0
        rw [hji] at hs0
        exact processStrikeAt_good_self font i s0 hs0
      · left
        exact hjm
    · right
      intro s0 hs0
      by_cases hji : j = i
      · rw [hji] at hs0
        exact processStrikeAt_good_self font i s0 hs0
      · rw [processStrikeAt_get?_ne font i j hji] at hs0
        exact hj s0 hs0

lemma foldl_fixStep_id :
    ∀ (is : List Nat) (font : BFont) (c : Nat),
      (∀ j s, font.cblc.strikes.get? j = some s → goodStrike s) →
      is.foldl fixStep (font, c) = (font, c) := by
  intro is
  induction is with
  | nil => intro font c _; rfl
  | cons i is' ih =>
    intro font c hg
    rw [List.foldl_cons]
    have hstep : fixStep (font, c) i = (font, c) := by
      unfold fixStep
      rw [processStrikeAt_of_good font i (hg i)]
      simp
    rw [hstep]
    exact ih font c hg

lemma fix_good (font : BFont) :
    ∀ j s,
      (fix_cbdt_cblc_sizes_for_directwrite font).1.cblc.strikes.get? j =
        some s → goodStrike s := by
  intro j s hs
  unfold fix_cbdt_cblc_sizes_for_directwrite at hs
  dsimp only at hs
  refine foldl_fixStep_good (List.range font.cblc.strikes.length)
    font 0 j s ?_ hs
  by_cases hj : j < font.cblc.strikes.length
  · left
    exact List.mem_range.mpr hj
  · right
    intro s0 hs0
    exfalso
    exact hj (List.get?_eq_some.mp hs0).1

lemma is310_eq (st : CmapSubtable) :
    is310 st = true ↔ st.platformID = 3 ∧ st.platEncID = 10 := by
  simp [is310]

lemma unicode_full_foldl_aux :
    ∀ (l : List CmapSubtable) (acc : Option CmapSubtable)
      (fs : CmapSubtable),
      l.foldl (fun acc st => if is310 st then some st else acc) acc =
        some fs →
      acc = some fs ∨ (fs ∈ l ∧ is310 fs = true) := by
  intro l
  induction l with
  | nil => intro acc fs h; exact Or.inl h
  | cons st rest ih =>
    intro acc fs h
    rw [List.foldl_cons] at h
    rcases ih _ fs h with hacc | hmem
    · by_cases h310 : is310 st = true
      · rw [if_pos h310] at hacc
        injection hacc with h'
        subst h'
        exact Or.inr ⟨List.mem_cons_self st rest, h310⟩
      · rw [if_neg h310] at hacc
        exact Or.inl hacc
    · exact Or.inr ⟨List.mem_cons_of_mem st hmem.1, hmem.2⟩

lemma unicode_full_subtable_spec (tables : List CmapSubtable)
    (fs : CmapSubtable) (h : unicode_full_subtable tables = some fs) :
    fs ∈ tables ∧ fs.platformID = 3 ∧ fs.platEncID = 10 := by
  unfold unicode_full_subtable at h
  rcases unicode_full_foldl_aux tables none fs h with hc | hm
  · cases hc
  · exact ⟨hm.1, (is310_eq fs).mp hm.2⟩

lemma hasFull_of_full (tables : List CmapSubtable) (fs : CmapSubtable)
    (h : unicode_full_subtable tables = some fs) :
    has_windows_unicode_full tables = true := by
  unfold unicode_full_subtable at h
  rcases unicode_full_foldl_aux tables none fs h with hc | hm
  · cases hc
  · exact List.any_eq_true.mpr ⟨fs, hm.1, hm.2⟩

lemma pyInsert_mem {α : Type} (n : Nat) (a b : α) (l : List α) :
    b ∈ pyInsert n a l ↔ b = a ∨ b ∈ l := by
  unfold pyInsert
  split
  · exact List.mem_insertIdx (by assumption)
  · simp [or_comm]

lemma unicode_full_foldl_of_filter_nil :
    ∀ (l : List CmapSubtable) (acc : Option CmapSubtable),
      l.filter is310 = [] →
      l.foldl (fun acc st => if is310 st then some st else acc) acc =
        acc := by
  intro l
  induction l with
  | nil => intro acc _; rfl
  | cons st rest ih =>
    intro acc h
    by_cases h310 : is310 st = true
    · rw [List.filter_cons_of_pos h310] at h
      cases h
    · rw [List.filter_cons_of_neg (by simp [h310])] at h
      rw [List.foldl_cons, if_neg (by simp [h310])]
      exact ih acc h

lemma unicode_full_of_filter_singleton (l : List CmapSubtable)
    (fs : CmapSubtable) (h : l.filter is310 = [fs]) :
    unicode_full_subtable l = some fs := by
  unfold unicode_full_subtable
  induction l with
  | nil => cases h
  | cons st rest ih =>
    by_cases h310 : is310 st = true
    · rw [List.filter_cons_of_pos h310] at h
      have h1 : st = fs := by
        injection h
      have h2 : rest.filter is310 = [] := by
        injection h
      rw [List.foldl_cons, if_pos h310, h1]
      exact unicode_full_foldl_of_filter_nil rest (some fs) h2
    · rw [List.filter_cons_of_neg (by simp [h310])] at h
      rw [List.foldl_cons, if_neg (by simp [h310])]
      exact ih h

lemma filter_singleton_mem (l : List CmapSubtable) (fs : CmapSubtable)
    (h : l.filter is310 = [fs]) : fs ∈ l ∧ is310 fs = true := by
  have hm : fs ∈ l.filter is310 := by
    rw [h]
    exact List.mem_cons_self fs []
  exact ⟨(List.mem_filter.mp hm).1, (List.mem_filter.mp hm).2⟩

lemma filter_insertIdx_neg {α : Type} (p : α → Bool) (a : α)
    (hp : p a = false) :
    ∀ (n : Nat) (l : List α), n ≤ l.length →
      (l.insertIdx n a).filter p = l.filter p := by
  intro n
  induction n with
  | zero =>
    intro l _
    rw [List.insertIdx_zero, List.filter_cons_of_neg (by simp [hp])]
  | succ n ih =>
    intro l hl
    cases l with
    | nil => cases hl
    | cons x xs =>
      rw [List.insertIdx_succ_cons]
      by_cases hx : p x = true
      · rw [List.filter_cons_of_pos hx, List.filter_cons_of_pos hx,
          ih xs (Nat.le_of_succ_le_succ hl)]
      · rw [List.filter_cons_of_neg (by simp [hx]),
          List.filter_cons_of_neg (by simp [hx]),
          ih xs (Nat.le_of_succ_le_succ hl)]

lemma filter_pyInsert_neg {α : Type} (p : α → Bool) (a : α) (n : Nat)
    (l : List α) (hp : p a = false) :
    (pyInsert n a l).filter p = l.filter p := by
  unfold pyInsert
  split
  · exact filter_insertIdx_neg p a hp n l (by assumption)
  · rw [List.filter_append]
    simp [hp]

lemma replaceFirst310_mem_of_not310 (l : List CmapSubtable)
    (st new : CmapSubtable) (hmem : st ∈ l) (h310 : is310 st = false) :
    st ∈ replaceFirst310 new l := by
  induction l with
  | nil => cases hmem
  | cons x rest ih =>
    unfold replaceFirst310
    by_cases hx : is310 x = true
    · rw [if_pos hx]
      rcases List.mem_cons.mp hmem with h | h
      · rw [h] at h310
        rw [hx] at h310
        cases h310
      · exact List.mem_cons_of_mem new h
    · rw [if_neg hx]
      rcases List.mem_cons.mp hmem with h | h
      · rw [h]
        exact List.mem_cons_self x _
      · exact List.mem_cons_of_mem x (ih h)

lemma replaceFirst310_new_mem (l : List CmapSubtable)
    (fs new : CmapSubtable) (hmem : fs ∈ l) (h310 : is310 fs = true) :
    new ∈ replaceFirst310 new l := by
  induction l with
  | nil => cases hmem
  | cons x rest ih =>
    unfold replaceFirst310
    by_cases hx : is310 x = true
    · rw [if_pos hx]
      exact List.mem_cons_self new rest
    · rw [if_neg hx]
      rcases List.mem_cons.mp hmem with h | h
      · rw [← h] at hx
        exact absurd h310 hx
      · exact List.mem_cons_of_mem x (ih h)

lemma replaceFirst310_of_filter_singleton :
    ∀ (l : List CmapSubtable) (fs new : CmapSubtable),
      l.filter is310 = [fs] →
      ∃ j, l.get? j = some fs ∧
        (replaceFirst310 new l).get? j = some new ∧
        ∀ k, k ≠ j → (replaceFirst310 new l).get? k = l.get? k := by
  intro l
  induction l with
  | nil => intro fs new h; cases h
  | cons st rest ih =>
    intro fs new h
    by_cases h310 : is310 st = true
    · rw [List.filter_cons_of_pos h310] at h
      have h1 : st = fs := by injection h
      have h2 : rest.filter is310 = [] := by injection h
      refine ⟨0, by rw [h1]; rfl, ?_, ?_⟩
      · unfold replaceFirst310
        rw [if_pos h310]
        rfl
      · intro k hk
        unfold replaceFirst310
        rw [if_pos h310]
        cases k with
        | zero => exact absurd rfl hk
        | succ k' => rfl
    · rw [List.filter_cons_of_neg (by simp [h310])] at h
      obtain ⟨j, hj1, hj2, hj3⟩ := ih fs new h
      refine ⟨j + 1, by simpa using hj1, ?_, ?_⟩
      · unfold replaceFirst310
        rw [if_neg h310]
        simpa using hj2
      · intro k hk
        unfold replaceFirst310
        rw [if_neg h310]
        cases k with
        | zero => rfl
        | succ k' =>
          have : k' ≠ j := by omega
          simpa using hj3 k' this

lemma resize_bitmap_data_alpha (bd : ByteData) (img : PILImage) (n : Nat)
    (rd : ByteData) (hp : bd.parsesTo = some img)
    (hsz : ¬(img.width = n ∧ img.height = n))
    (hr : resize_bitmap_data bd n = some rd) :
    ∃ img2, rd.parsesTo = some img2 ∧ hasAlphaChannel img2 = true := by
  unfold resize_bitmap_data at hr
  by_cases hlen : bd.length < 10
  · rw [if_pos hlen] at hr
    cases hr
  · rw [if_neg hlen, hp] at hr
    dsimp only at hr
    rw [if_neg hsz] at hr
    by_cases hmode : img.mode = PILMode.RGBA ∨ img.mode = PILMode.LA ∨
        (img.mode = PILMode.P ∧ img.hasTransparencyInfo)
    · rw [if_pos hmode] at hr
      injection hr with h'
      refine ⟨pilResize img n, by rw [← h']; rfl, ?_⟩
      simp only [hasAlphaChannel, pilResize]
      exact decide_eq_true hmode
    · rw [if_neg hmode] at hr
      injection hr with h'
      refine ⟨pilConvertRGBA (pilResize img n), by rw [← h']; rfl, ?_⟩
      simp [hasAlphaChannel, pilConvertRGBA]

lemma processStrikeAt_error (font : BFont) (i : Nat) (strike : Strike)
    (bst : BitmapSizeTable)
    (hq : font.cblc.strikes.get? i = some strike)
    (hb : strike.bitmapSizeTable = some bst)
    (hne : max bst.ppemX bst.ppemY ≠ closestDW (max bst.ppemX bst.ppemY))
    (hidx : strike.indexSubTables ≠ 0)
    (hgo : font.glyphOrderOk = false) :
    processStrikeAt font i =
      (setStrike font i
        (resizedStrike strike (closestDW (max bst.ppemX bst.ppemY))),
        false) := by
  obtain ⟨hlt, hget⟩ := List.get?_eq_some.mp hq
  unfold processStrikeAt
  rw [hq]
  dsimp only
  rw [hb]
  dsimp only
  rw [if_neg hne]
  rw [resize_strike_bitmaps_error font i _ hlt
    (by rw [hget]; exact hidx) hgo, hget]

lemma ensure_format12_cases (tables : List CmapSubtable)
    (fs : CmapSubtable) :
    ((tables.any fun st => is310 st && st.format == 12) = true ∧
      ensure_format12_cmap tables (some fs) = tables) ∨
    ((tables.any fun st => is310 st && st.format == 12) = false ∧
      fs.format = 12 ∧ ensure_format12_cmap tables (some fs) = tables) ∨
    ((tables.any fun st => is310 st && st.format == 12) = false ∧
      fs.format ≠ 12 ∧
      ensure_format12_cmap tables (some fs) =
        replaceFirst310
          { platformID := 3, platEncID := 10, format := 12, language := 0,
            cmap := fs.cmap } tables) := by
  unfold ensure_format12_cmap
  by_cases h12 : (tables.any fun st => is310 st && st.format == 12) = true
  · refine Or.inl ⟨h12, ?_⟩
    rw [if_neg (by simp [h12])]
  · have h12' : (tables.any fun st => is310 st && st.format == 12) = false :=
      Bool.eq_false_iff.mpr h12
    by_cases hf : fs.format = 12
    · refine Or.inr (Or.inl ⟨h12', hf, ?_⟩)
      rw [if_pos (by simp [h12'])]
      dsimp only
      rw [if_neg (by simp [hf])]
    · refine Or.inr (Or.inr ⟨h12', hf, ?_⟩)
      rw [if_pos (by simp [h12'])]
      dsimp only
      rw [if_pos hf]

/-! ## Claims -/

/-- C1: the bitmap strike rewriter's target `closestDW (max ppemX ppemY)`
is always a member of the canonical size list, minimizes the absolute
difference to the declared maximum size, breaks ties toward the smaller
candidate (the first minimum of the ascending canonical list), and in
particular maps a declared size of 137 to 128. -/
theorem C1_nearest_canonical_size :
    (∀ current_max : Nat,
      closestDW current_max ∈ directwrite_sizes ∧
      (∀ c ∈ directwrite_sizes,
        Nat.dist (closestDW current_max) current_max ≤
          Nat.dist c current_max) ∧
      (∀ c ∈ directwrite_sizes,
        Nat.dist c current_max =
          Nat.dist (closestDW current_max) current_max →
          closestDW current_max ≤ c)) ∧
    closestDW 137 = 128 :=
  ⟨fun m => ⟨closestDW_mem m, closestDW_min m, closestDW_tie m⟩, by decide⟩

/-- C1 witness: the selection theorem applied at the concrete declared
size 137 against the canonical candidate 96. -/
theorem C1_nearest_canonical_size_witness :
    closestDW 137 ∈ directwrite_sizes ∧
    Nat.dist (closestDW 137) 137 ≤ Nat.dist 96 137 ∧
    (Nat.dist 96 137 = Nat.dist (closestDW 137) 137 → closestDW 137 ≤ 96) :=
  ⟨(C1_nearest_canonical_size.1 137).1,
   (C1_nearest_canonical_size.1 137).2.1 96 (by decide),
   fun h => (C1_nearest_canonical_size.1 137).2.2 96 (by decide) h⟩

/-- C2 (code bug): on a 137x137 strike with horizontal metrics
(100, -30) and vertical metrics (50, -20), rewritten to target 128,
`update_strike_size_metadata` leaves every ascender/descender unchanged
— the scale factor is computed from the already-overwritten ppem fields
and is therefore always 1 — whereas the claimed ratio target/old_max
would give trunc(100·128/137) = 93 and trunc(-30·128/137) = -28. -/
theorem C2_metadata_scaling_code_bug :
    (∀ (font : BFont) (i n : Nat) (h : i < font.cblc.strikes.length)
        (bst : BitmapSizeTable),
      (font.cblc.strikes.get ⟨i, h⟩).bitmapSizeTable = some bst →
      0 < n →
      update_strike_size_metadata font i n =
        (setStrike font i
          { font.cblc.strikes.get ⟨i, h⟩ with
            bitmapSizeTable := some
              { ppemX := n, ppemY := n, hori := bst.hori,
                vert := bst.vert } },
          true)) ∧
    (update_strike_size_metadata fontC2 0 128).1.cblc.strikes.get? 0 =
      some strikeC2out ∧
    bstC2out.hori = bstC2.hori ∧ bstC2out.vert = bstC2.vert ∧
    intTrunc ((100 : ℚ) * 128 / 137) = 93 ∧
    intTrunc ((-30 : ℚ) * 128 / 137) = -28 := by
  refine ⟨fun font i n h bst hb hn =>
    update_strike_size_metadata_no_scale font i n h bst hb hn,
    ?_, rfl, rfl, ?_, ?_⟩
  · rw [update_strike_size_metadata_no_scale fontC2 0 128 (by decide)
      bstC2 rfl (by decide)]
    rfl
  · norm_num [intTrunc]
  · norm_num [intTrunc]

/-- C2 witness: the no-scaling equation applied at the concrete failing
input (137x137 strike, target 128): the result keeps the metric
sub-records (100, -30) and (50, -20) verbatim. -/
theorem C2_metadata_scaling_code_bug_witness :
    update_strike_size_metadata fontC2 0 128 =
      (setStrike fontC2 0 strikeC2out, true) :=
  C2_metadata_scaling_code_bug.1 fontC2 0 128 (by decide) bstC2 rfl
    (by decide)

/-- C3 counterexample: a strike on which the resampling attempt raises
(glyph-order lookup fails) and the fallback never runs — so both
attempts fail and the strike is not counted — nevertheless has its
declared ppemX/ppemY rewritten from 137 to 128, refuting "left
unmodified". -/
theorem C3_counterexample :
    fontC3.glyphOrderOk = false ∧
    fontC3.cblc.strikes.get? 0 = some strikeC3 ∧
    bstC3.ppemX = 137 ∧ bstC3.ppemY = 137 ∧
    (processStrikeAt fontC3 0).2 = false ∧
    (processStrikeAt fontC3 0).1.cblc.strikes.get? 0 = some strikeC3out ∧
    bstC3out.ppemX = 128 ∧ strikeC3out ≠ strikeC3 := by
  refine ⟨?_, ?_, ?_, ?_, ?_, ?_, ?_, ?_⟩ <;> decide

/-- C3 (amended): for every strike on which the resampling attempt
raises after its size-table update (and hence the fallback never runs
and the strike is not counted as modified), the strike's metric
sub-records are left unmodified and every other strike is untouched by
this failure — but the failing strike's ppemX/ppemY have already been
set to the target size. -/
theorem C3_amended_failure_leaves_metrics :
    ∀ (font : BFont) (i : Nat) (strike : Strike) (bst : BitmapSizeTable),
      font.cblc.strikes.get? i = some strike →
      strike.bitmapSizeTable = some bst →
      max bst.ppemX bst.ppemY ≠ closestDW (max bst.ppemX bst.ppemY) →
      strike.indexSubTables ≠ 0 →
      font.glyphOrderOk = false →
      (processStrikeAt font i).2 = false ∧
      (∃ strike', (processStrikeAt font i).1.cblc.strikes.get? i =
          some strike' ∧
        ∃ bst', strike'.bitmapSizeTable = some bst' ∧
          bst'.hori = bst.hori ∧ bst'.vert = bst.vert ∧
          bst'.ppemX = closestDW (max bst.ppemX bst.ppemY) ∧
          bst'.ppemY = closestDW (max bst.ppemX bst.ppemY)) ∧
      (∀ j, j ≠ i → (processStrikeAt font i).1.cblc.strikes.get? j =
        font.cblc.strikes.get? j) := by
  intro font i strike bst hq hb hne hidx hgo
  have hlt : i < font.cblc.strikes.length := (List.get?_eq_some.mp hq).1
  rw [processStrikeAt_error font i strike bst hq hb hne hidx hgo]
  refine ⟨rfl, ?_, ?_⟩
  · refine ⟨resizedStrike strike (closestDW (max bst.ppemX bst.ppemY)),
      ?_, setPpem bst (closestDW (max bst.ppemX bst.ppemY)),
      resizedStrike_bst strike _ bst hb, rfl, rfl, rfl, rfl⟩
    rw [setStrike_cblc]
    exact list_get?_set_self font.cblc.strikes i _ hlt
  · intro j hj
    rw [setStrike_cblc]
    exact list_get?_set_ne font.cblc.strikes i j _ hj

/-- C3 witness: the amended statement applied to the concrete failing
strike of `fontC3`. -/
theorem C3_amended_failure_leaves_metrics_witness :
    (processStrikeAt fontC3 0).2 = false ∧
    (∃ strike', (processStrikeAt fontC3 0).1.cblc.strikes.get? 0 =
        some strike' ∧
      ∃ bst', strike'.bitmapSizeTable = some bst' ∧
        bst'.hori = bstC3.hori ∧ bst'.vert = bstC3.vert ∧
        bst'.ppemX = closestDW (max bstC3.ppemX bstC3.ppemY) ∧
        bst'.ppemY = closestDW (max bstC3.ppemX bstC3.ppemY)) ∧
    (∀ j, j ≠ 0 → (processStrikeAt fontC3 0).1.cblc.strikes.get? j =
      fontC3.cblc.strikes.get? j) :=
  C3_amended_failure_leaves_metrics fontC3 0 strikeC3 bstC3 rfl rfl
    (by decide) (by decide) rfl

/-- C6: a strike whose declared maximum size is already canonical is
left untouched by the per-strike rewriter, and running the whole
rewriter twice leaves the font state — in particular every declared
size — exactly as after one run. -/
theorem C6_canonical_skip_idempotent :
    (∀ (font : BFont) (i : Nat) (strike : Strike) (bst : BitmapSizeTable),
      font.cblc.strikes.get? i = some strike →
      strike.bitmapSizeTable = some bst →
      max bst.ppemX bst.ppemY ∈ directwrite_sizes →
      processStrikeAt font i = (font, false)) ∧
    (∀ font : BFont,
      (fix_cbdt_cblc_sizes_for_directwrite
          (fix_cbdt_cblc_sizes_for_directwrite font).1).1 =
        (fix_cbdt_cblc_sizes_for_directwrite font).1) := by
  constructor
  · exact fun font i strike bst hq hb hm =>
      processStrikeAt_skip_canonical font i strike bst hq hb hm
  · intro font
    have hg := fix_good font
    have hfold := foldl_fixStep_id
      (List.range
        (fix_cbdt_cblc_sizes_for_directwrite font).1.cblc.strikes.length)
      (fix_cbdt_cblc_sizes_for_directwrite font).1 0 hg
    show ((List.range
        (fix_cbdt_cblc_sizes_for_directwrite font).1.cblc.strikes.length).foldl
          fixStep ((fix_cbdt_cblc_sizes_for_directwrite font).1, 0)).1 =
      (fix_cbdt_cblc_sizes_for_directwrite font).1
    rw [hfold]

/-- C6 witness: the theorem applied to a concrete font whose single
strike declares sizes (128, 64), already canonical. -/
theorem C6_canonical_skip_idempotent_witness :
    processStrikeAt fontC6 0 = (fontC6, false) ∧
    (fix_cbdt_cblc_sizes_for_directwrite
        (fix_cbdt_cblc_sizes_for_directwrite fontC6).1).1 =
      (fix_cbdt_cblc_sizes_for_directwrite fontC6).1 :=
  ⟨C6_canonical_skip_idempotent.1 fontC6 0 strikeC6 bstC6 rfl rfl
      (by decide),
   C6_canonical_skip_idempotent.2 fontC6⟩

/-- C7 counterexample: a glyph whose located payload is exactly 10
bytes long — "at least 10 bytes" in the claim's words — is nevertheless
not submitted to the resampler, because the gate requires strictly more
than 10 bytes. -/
theorem C7_counterexample :
    locatedBitmapData glyphC7 = some bdC7 ∧ bdC7.length = 10 ∧
    10 ≤ bdC7.length ∧ submittedToResampler glyphC7 = false ∧
    processGlyph 128 glyphC7 = (glyphC7, false) := by
  refine ⟨?_, ?_, ?_, ?_, ?_⟩ <;> decide

/-- C7 (amended): a glyph's payload is submitted to the resampler if
and only if a payload was located and it is strictly longer than 10
bytes; a glyph that is not submitted is left unchanged and not
counted. -/
theorem C7_amended_gate_strictly_greater :
    ∀ (new_size : Nat) (g : BitmapGlyph),
      (submittedToResampler g = true ↔
        ∃ bd, locatedBitmapData g = some bd ∧ 10 < bd.length) ∧
      (submittedToResampler g = false →
        processGlyph new_size g = (g, false)) := by
  intro new_size g
  constructor
  · unfold submittedToResampler
    cases h : locatedBitmapData g with
    | none => simp
    | some bd => simp
  · intro hs
    unfold submittedToResampler at hs
    unfold processGlyph
    cases h : locatedBitmapData g with
    | none => rfl
    | some bd =>
      rw [h] at hs
      simp only [decide_eq_false_iff_not] at hs
      dsimp only
      rw [if_neg hs]

/-- C7 witness: the amended gate applied to the concrete 10-byte
payload glyph. -/
theorem C7_amended_gate_strictly_greater_witness :
    processGlyph 128 glyphC7 = (glyphC7, false) :=
  (C7_amended_gate_strictly_greater 128 glyphC7).2 (by decide)

/-- C8 counterexample: a glyph whose bitmap is an RGB (alpha-less)
image already at the 128x128 target size is counted as successfully
resampled, yet the bytes written back are the original ones and decode
to an image without an alpha channel. -/
theorem C8_counterexample :
    (processGlyph 128 glyphC8).2 = true ∧
    (processGlyph 128 glyphC8).1.imageData = some bdC8 ∧
    bdC8.parsesTo = some imgC8 ∧ imgC8.width = 128 ∧ imgC8.height = 128 ∧
    hasAlphaChannel imgC8 = false := by
  refine ⟨?_, ?_, ?_, ?_, ?_, ?_⟩ <;> decide

/-- C8 (amended): for every counted glyph whose source image was not
already at the target size, the written-back bytes decode to an image
with an alpha channel present, regardless of source mode. -/
theorem C8_amended_alpha_when_reencoded :
    (∀ (bd : ByteData) (img : PILImage) (new_size : Nat) (rd : ByteData),
      bd.parsesTo = some img →
      ¬(img.width = new_size ∧ img.height = new_size) →
      resize_bitmap_data bd new_size = some rd →
      ∃ img2, rd.parsesTo = some img2 ∧ hasAlphaChannel img2 = true) ∧
    (∀ (new_size : Nat) (g g2 : BitmapGlyph) (bd : ByteData)
        (img : PILImage),
      processGlyph new_size g = (g2, true) →
      locatedBitmapData g = some bd →
      bd.parsesTo = some img →
      ¬(img.width = new_size ∧ img.height = new_size) →
      ∃ rd img2, g2.imageData = some rd ∧ rd.parsesTo = some img2 ∧
        hasAlphaChannel img2 = true) := by
  constructor
  · exact fun bd img n rd => resize_bitmap_data_alpha bd img n rd
  · intro n g g2 bd img hpg hloc hp hsz
    unfold processGlyph at hpg
    rw [hloc] at hpg
    dsimp only at hpg
    by_cases hlen : 10 < bd.length
    · rw [if_pos hlen] at hpg
      cases hr : resize_bitmap_data bd n with
      | none =>
        rw [hr] at hpg
        dsimp only at hpg
        injection hpg with _ h2
        exact Bool.noConfusion h2
      | some rd =>
        rw [hr] at hpg
        dsimp only at hpg
        by_cases hrd : rd.length ≠ 0
        · rw [if_pos hrd] at hpg
          injection hpg with h1 _
          obtain ⟨img2, h3, h4⟩ :=
            resize_bitmap_data_alpha bd img n rd hp hsz hr
          exact ⟨rd, img2, by rw [← h1], h3, h4⟩
        · rw [if_neg hrd] at hpg
          injection hpg with _ h2
          exact Bool.noConfusion h2
    · rw [if_neg hlen] at hpg
      injection hpg with _ h2
      exact Bool.noConfusion h2

/-- C8 witness: the amended statement applied to a concrete RGB
137x137 source, whose re-encoding converts to RGBA. -/
theorem C8_amended_alpha_when_reencoded_witness :
    ∃ img2, rdC8w.parsesTo = some img2 ∧ hasAlphaChannel img2 = true :=
  C8_amended_alpha_when_reencoded.1 bdC8w imgC8w 128 rdC8w rfl
    (by decide) (by decide)

/-- C4: for a cmap with no (3, 1) BMP subtable and a (3, 10)
full-Unicode subtable, the normalizer's output contains a (3, 1)
subtable whose mapping is exactly the restriction of the full-Unicode
mapping to codepoints in [0x0000, 0xFFFF], and still contains a (3, 10)
subtable carrying the unchanged full-Unicode mapping. -/
theorem C4_bmp_restriction :
    ∀ (tables : List CmapSubtable) (fs : CmapSubtable),
      has_windows_unicode_bmp tables = false →
      unicode_full_subtable tables = some fs →
      (∃ st ∈ ensure_windows_compatible_cmap tables,
        st.platformID = 3 ∧ st.platEncID = 1 ∧
        st.cmap = fs.cmap.filter
          (fun p => decide (0x0000 ≤ p.1 ∧ p.1 ≤ 0xFFFF))) ∧
      (∃ st ∈ ensure_windows_compatible_cmap tables,
        st.platformID = 3 ∧ st.platEncID = 10 ∧ st.cmap = fs.cmap) := by
  intro tables fs hbmp hfull
  have hasFull := hasFull_of_full tables fs hfull
  have hspec := unicode_full_subtable_spec tables fs hfull
  unfold ensure_windows_compatible_cmap
  rw [if_pos (by simp [hbmp, hasFull])]
  dsimp only
  rw [hfull]
  have hbmpmem : bmp_subtable_of (some fs) ∈
      pyInsert 1 (bmp_subtable_of (some fs)) tables :=
    (pyInsert_mem 1 _ _ tables).mpr (Or.inl rfl)
  have hfsmem : fs ∈ pyInsert 1 (bmp_subtable_of (some fs)) tables :=
    (pyInsert_mem 1 _ _ tables).mpr (Or.inr hspec.1)
  rcases ensure_format12_cases
      (pyInsert 1 (bmp_subtable_of (some fs)) tables) fs with
    ⟨_, hout⟩ | ⟨_, _, hout⟩ | ⟨_, _, hout⟩
  · rw [hout]
    exact ⟨⟨bmp_subtable_of (some fs), hbmpmem, rfl, rfl, rfl⟩,
      ⟨fs, hfsmem, hspec.2.1, hspec.2.2, rfl⟩⟩
  · rw [hout]
    exact ⟨⟨bmp_subtable_of (some fs), hbmpmem, rfl, rfl, rfl⟩,
      ⟨fs, hfsmem, hspec.2.1, hspec.2.2, rfl⟩⟩
  · rw [hout]
    refine ⟨⟨bmp_subtable_of (some fs), ?_, rfl, rfl, rfl⟩,
      ⟨{ platformID := 3, platEncID := 10, format := 12, language := 0,
          cmap := fs.cmap }, ?_, rfl, rfl, rfl⟩⟩
    · exact replaceFirst310_mem_of_not310 _ _ _ hbmpmem rfl
    · exact replaceFirst310_new_mem _ fs _ hfsmem
        ((is310_eq fs).mpr ⟨hspec.2.1, hspec.2.2⟩)

/-- C4 witness: the theorem applied to the concrete cmap whose (3, 10)
subtable maps 0x41 and 0x1F600; the synthesized BMP mapping evaluates
to the single entry 0x41, the supplementary codepoint being excluded. -/
theorem C4_bmp_restriction_witness :
    ((∃ st ∈ ensure_windows_compatible_cmap tablesC4,
        st.platformID = 3 ∧ st.platEncID = 1 ∧
        st.cmap = fsC4.cmap.filter
          (fun p => decide (0x0000 ≤ p.1 ∧ p.1 ≤ 0xFFFF))) ∧
      (∃ st ∈ ensure_windows_compatible_cmap tablesC4,
        st.platformID = 3 ∧ st.platEncID = 10 ∧ st.cmap = fsC4.cmap)) ∧
    fsC4.cmap.filter (fun p => decide (0x0000 ≤ p.1 ∧ p.1 ≤ 0xFFFF)) =
      [(0x41, "A")] ∧
    fsC4.cmap = [(0x41, "A"), (0x1F600, "grinningface")] :=
  ⟨C4_bmp_restriction tablesC4 fsC4 (by decide) (by decide),
   by decide, by decide⟩

/-- C5 counterexample: a cmap that already has a (3, 1) BMP subtable
next to a Format-4 (3, 10) subtable is left completely unchanged by the
normalizer — no Format-12 (3, 10) subtable exists afterwards, refuting
"regardless of whether a (3, 1) BMP subtable was already present". -/
theorem C5_counterexample :
    has_windows_unicode_bmp tablesC5 = true ∧
    has_windows_unicode_full tablesC5 = true ∧
    ensure_windows_compatible_cmap tablesC5 = tablesC5 ∧
    ((ensure_windows_compatible_cmap tablesC5).any
      fun st => is310 st && st.format == 12) = false := by
  refine ⟨?_, ?_, ?_, ?_⟩ <;> decide

/-- C5 (amended): when the cmap has no (3, 1) BMP subtable and exactly
one (3, 10) subtable, the normalized cmap contains a Format-12 (3, 10)
subtable with the identical mapping; and when the existing full-Unicode
subtable was not Format 12, the Format-12 replacement sits at the very
list position the old subtable occupied after the BMP insertion, all
other positions unchanged. -/
theorem C5_amended_format12_only_when_bmp_missing :
    ∀ (tables : List CmapSubtable) (fs : CmapSubtable),
      has_windows_unicode_bmp tables = false →
      tables.filter is310 = [fs] →
      (∃ st ∈ ensure_windows_compatible_cmap tables,
        st.platformID = 3 ∧ st.platEncID = 10 ∧ st.format = 12 ∧
        st.cmap = fs.cmap) ∧
      (fs.format ≠ 12 →
        ∃ j, (pyInsert 1
            (bmp_subtable_of (unicode_full_subtable tables)) tables).get? j =
              some fs ∧
          (ensure_windows_compatible_cmap tables).get? j =
            some { platformID := 3, platEncID := 10, format := 12,
                   language := 0, cmap := fs.cmap } ∧
          ∀ k, k ≠ j → (ensure_windows_compatible_cmap tables).get? k =
            (pyInsert 1
              (bmp_subtable_of (unicode_full_subtable tables)) tables).get?
                k) := by
  intro tables fs hbmp hfilter
  have hfs := filter_singleton_mem tables fs hfilter
  have hfull : unicode_full_subtable tables = some fs :=
    unicode_full_of_filter_singleton tables fs hfilter
  have hasFull : has_windows_unicode_full tables = true :=
    hasFull_of_full tables fs hfull
  have h310props := (is310_eq fs).mp hfs.2
  unfold ensure_windows_compatible_cmap
  rw [if_pos (by simp [hbmp, hasFull])]
  dsimp only
  rw [hfull]
  have hbmpis : is310 (bmp_subtable_of (some fs)) = false := rfl
  have hT1filter :
      (pyInsert 1 (bmp_subtable_of (some fs)) tables).filter is310 =
        [fs] := by
    rw [filter_pyInsert_neg is310 _ 1 tables hbmpis, hfilter]
  have hfsT1 : fs ∈ pyInsert 1 (bmp_subtable_of (some fs)) tables :=
    (pyInsert_mem 1 _ _ tables).mpr (Or.inr hfs.1)
  rcases ensure_format12_cases
      (pyInsert 1 (bmp_subtable_of (some fs)) tables) fs with
    ⟨hany, hout⟩ | ⟨_, h12, hout⟩ | ⟨_, hne12, hout⟩
  · obtain ⟨st, hstmem, hstp⟩ := List.any_eq_true.mp hany
    rw [Bool.and_eq_true] at hstp
    have hstfs : st = fs := by
      have hmf : st ∈ (pyInsert 1 (bmp_subtable_of (some fs))
          tables).filter is310 :=
        List.mem_filter.mpr ⟨hstmem, hstp.1⟩
      rw [hT1filter] at hmf
      simpa using hmf
    have hfs12 : fs.format = 12 := by
      have := hstp.2
      rw [hstfs] at this
      simpa using this
    rw [hout]
    exact ⟨⟨fs, hfsT1, h310props.1, h310props.2, hfs12, rfl⟩,
      fun hne => absurd hfs12 hne⟩
  · rw [hout]
    exact ⟨⟨fs, hfsT1, h310props.1, h310props.2, h12, rfl⟩,
      fun hne => absurd h12 hne⟩
  · rw [hout]
    obtain ⟨j, hj1, hj2, hj3⟩ :=
      replaceFirst310_of_filter_singleton
        (pyInsert 1 (bmp_subtable_of (some fs)) tables) fs
        { platformID := 3, platEncID := 10, format := 12, language := 0,
          cmap := fs.cmap } hT1filter
    refine ⟨⟨_, List.get?_mem hj2, rfl, rfl, rfl, rfl⟩,
      fun _ => ⟨j, hj1, hj2, hj3⟩⟩

/-- C5 witness: the amended statement applied to the concrete
single-subtable cmap of `tablesC4` (no BMP present, Format 4). -/
theorem C5_amended_format12_only_when_bmp_missing_witness :
    (∃ st ∈ ensure_windows_compatible_cmap tablesC4,
      st.platformID = 3 ∧ st.platEncID = 10 ∧ st.format = 12 ∧
      st.cmap = fsC4.cmap) ∧
    (fsC4.format ≠ 12 →
      ∃ j, (pyInsert 1
          (bmp_subtable_of (unicode_full_subtable tablesC4))
            tablesC4).get? j = some fsC4 ∧
        (ensure_windows_compatible_cmap tablesC4).get? j =
          some { platformID := 3, platEncID := 10, format := 12,
                 language := 0, cmap := fsC4.cmap } ∧
        ∀ k, k ≠ j → (ensure_windows_compatible_cmap tablesC4).get? k =
          (pyInsert 1
            (bmp_subtable_of (unicode_full_subtable tablesC4))
              tablesC4).get? k) :=
  C5_amended_format12_only_when_bmp_missing tablesC4 fsC4 (by decide)
    (by decide)

/-- C9: the name-table rewrite produces exactly 10 × 3 = 30 records,
with no duplicate (nameID, platformID, platEncID, langID) tuple, and
its output does not depend on the records present before the rewrite
(none of them survives). -/
theorem C9_name_table_rewrite :
    ∀ old : List NameRecord,
      (update_font_names old).length = 30 ∧
      windows_names.length = 10 ∧
      name_platforms.length = 3 ∧
      ((update_font_names old).map nameKey).Nodup ∧
      update_font_names old = update_font_names [] := by
  intro old
  refine ⟨?_, by decide, by decide, ?_, rfl⟩
  · show (update_font_names []).length = 30
    decide
  · show ((update_font_names []).map nameKey).Nodup
    decide

/-- C9 witness: the rewrite theorem applied to a concrete prior record
list (the empty one). -/
theorem C9_name_table_rewrite_witness :
    (update_font_names []).length = 30 ∧
    windows_names.length = 10 ∧
    name_platforms.length = 3 ∧
    ((update_font_names []).map nameKey).Nodup ∧
    update_font_names [] = update_font_names [] :=
  C9_name_table_rewrite []

/-- C10: a font without a cmap table makes the conversion entry point
raise (the cmap lookup is unguarded), while fonts missing OS/2, head,
post or CBDT/CBLC — but having cmap and name — convert without
raising. -/
theorem C10_missing_cmap_raises :
    (∀ font : TFont, font.cmap = none →
      convert_apple_emoji_to_windows font =
        Except.error "KeyError: cmap") ∧
    (∀ (font : TFont) (tables : List CmapSubtable)
        (recs : List NameRecord),
      font.cmap = some tables → font.name = some recs →
      font.os2 = false → font.head = false → font.post = false →
      font.bitmap = none →
      ∃ r, convert_apple_emoji_to_windows font = Except.ok r) := by
  constructor
  · intro font h
    unfold convert_apple_emoji_to_windows
    rw [h]
  · intro font tables recs hc hn _ _ _ hb
    unfold convert_apple_emoji_to_windows
    rw [hc]
    dsimp only
    rw [hn]
    dsimp only
    rw [hb]
    exact ⟨_, rfl⟩

/-- C10 witness: the theorem applied to two concrete fonts, one
without cmap, one with cmap and name only. -/
theorem C10_missing_cmap_raises_witness :
    convert_apple_emoji_to_windows fontC10a =
      Except.error "KeyError: cmap" ∧
    ∃ r, convert_apple_emoji_to_windows fontC10b = Except.ok r :=
  ⟨C10_missing_cmap_raises.1 fontC10a rfl,
   C10_missing_cmap_raises.2 fontC10b tablesC10 [] rfl rfl rfl rfl rfl
     rfl⟩

end EmojiWin
